import Mathlib

/-!
Verification of the SHARC core numerical kernels: the beamforming antenna
array (`sharc/antenna/antenna_beamforming_imt.py`) and the TVRO clutter
propagation model (`sharc/propagation/propagation_tvro.py`), shallowly
embedded over the real and complex numbers.  Machine floating point is
modelled by `ℝ`; numpy arrays by lists and by `Fin`-indexed functions.
-/

noncomputable section

namespace Sharc

/-- Degrees-to-radians conversion, as numpy's `deg2rad`: multiplication by `π/180`. -/
def deg2rad (x : ℝ) : ℝ := x * (Real.pi / 180)

/-- Matrix of an `n_rows × n_cols` rectangular array, 0-indexed: entry `i j`
corresponds to the source's 1-indexed `(n, m) = (i+1, j+1)`. -/
def ArrayMat (n_rows n_cols : ℕ) : Type := Fin n_rows → Fin n_cols → ℂ

/-- Embeds `AntennaBeamformingImt.super_position_vector`: entry `(i, j)` is
`exp(2π·i·[(n−1)·dv·cos(r_theta) + (m−1)·dh·sin(r_theta)·sin(r_phi)])` with
`n−1 = i`, `m−1 = j` and `r_phi`, `r_theta` the radian conversions. -/
def superPositionVector (n_rows n_cols : ℕ) (dh dv : ℝ) (phi theta : ℝ) :
    ArrayMat n_rows n_cols := fun i j =>
  let r_phi := deg2rad phi
  let r_theta := deg2rad theta
  let exp_arg : ℝ := (i : ℝ) * dv * Real.cos r_theta +
    (j : ℝ) * dh * Real.sin r_theta * Real.sin r_phi
  Complex.exp (2 * Real.pi * Complex.I * (exp_arg : ℝ))

/-- Embeds `AntennaBeamformingImt.weight_vector`: entry `(i, j)` is
`(1/sqrt(n_rows·n_cols))·exp(2π·i·[(n−1)·dv·sin(r_theta) − (m−1)·dh·cos(r_theta)·sin(r_phi)])`. -/
def weightVector (n_rows n_cols : ℕ) (dh dv : ℝ) (phi_tilt theta_tilt : ℝ) :
    ArrayMat n_rows n_cols := fun i j =>
  let r_phi := deg2rad phi_tilt
  let r_theta := deg2rad theta_tilt
  let exp_arg : ℝ := (i : ℝ) * dv * Real.sin r_theta -
    (j : ℝ) * dh * Real.cos r_theta * Real.sin r_phi
  ((1 / Real.sqrt ((n_rows : ℝ) * (n_cols : ℝ)) : ℝ) : ℂ) *
    Complex.exp (2 * Real.pi * Complex.I * (exp_arg : ℝ))

/-- The weight vector as the specification words it: element `(n, m)` (1-indexed)
equals `(1/√(n_rows·n_cols))·exp(i·2π·[(n−1)·dv·sin(θt) − (m−1)·dh·cos(θt)·sin(φt)])`,
where `θt`, `φt` are the radian conversions (`·π/180`) of `theta_tilt`, `phi_tilt`. -/
def weightVectorSpec (n_rows n_cols : ℕ) (dh dv : ℝ) (phi_tilt theta_tilt : ℝ) :
    ArrayMat n_rows n_cols := fun i j =>
  let θt := theta_tilt * Real.pi / 180
  let φt := phi_tilt * Real.pi / 180
  let n : ℝ := (i : ℝ) + 1
  let m : ℝ := (j : ℝ) + 1
  ((1 / Real.sqrt ((n_rows : ℝ) * (n_cols : ℝ)) : ℝ) : ℂ) *
    Complex.exp (Complex.I * (2 * Real.pi *
      ((n - 1) * dv * Real.sin θt - (m - 1) * dh * Real.cos θt * Real.sin φt) : ℝ))

/-- Embeds `AntennaBeamformingImt.array_gain`:
`10·log10(|Σ_{n,m} v[n,m]·w[n,m]|²)`. -/
def arrayGain (n_rows n_cols : ℕ) (v_vec w_vec : ArrayMat n_rows n_cols) : ℝ :=
  10 * Real.logb 10 (Complex.abs (∑ i, ∑ j, v_vec i j * w_vec i j) ^ 2)

/-- Frobenius norm of an array matrix. -/
def frobNorm (n_rows n_cols : ℕ) (M : ArrayMat n_rows n_cols) : ℝ :=
  Real.sqrt (∑ i, ∑ j, Complex.abs (M i j) ^ 2)

/-- Mutable beam state of `AntennaBeamformingImt`: the parallel lists
`self.__beams_list` and `self.__w_vec_list`. -/
structure AntennaState (n_rows n_cols : ℕ) where
  beams_list : List (ℝ × ℝ)
  w_vec_list : List (ArrayMat n_rows n_cols)

/-- State after `__init__`: both lists empty. -/
def initAntennaState (n_rows n_cols : ℕ) : AntennaState n_rows n_cols :=
  ⟨[], []⟩

/-- Embeds `AntennaBeamformingImt.add_beam`: appends the tilt pair to
`beams_list` and `weight_vector(phi_etilt, theta_etilt)` to `w_vec_list`. -/
def addBeam (n_rows n_cols : ℕ) (dh dv : ℝ) (s : AntennaState n_rows n_cols)
    (phi_etilt theta_etilt : ℝ) : AntennaState n_rows n_cols :=
  { beams_list := s.beams_list ++ [(phi_etilt, theta_etilt)]
    w_vec_list := s.w_vec_list ++ [weightVector n_rows n_cols dh dv phi_etilt theta_etilt] }

/-- Environment profile constants of `PropagationTvro`. -/
structure EnvParams where
  d_k : ℝ
  shadowing_std : ℝ
  h_a : ℝ

/-- Constants bound by the URBAN branch of `PropagationTvro.__init__`. -/
def urbanParams : EnvParams := ⟨0.02, 6, 20⟩

/-- Constants bound by the SUBURBAN branch of `PropagationTvro.__init__`. -/
def suburbanParams : EnvParams := ⟨0.025, 8, 9⟩

/-- Errors named by the specification's error-handling design. -/
inductive SimError where
  | configurationError
deriving DecidableEq

/-- Attribute state of a constructed `PropagationTvro`: `params = none` models
the profile attributes (`d_k`, `shadowing_std`, `h_a`) never being assigned. -/
structure PropagationTvro where
  params : Option EnvParams
  building_loss : ℝ

/-- Embeds Python's `str.upper` for the ASCII environment names in play:
uppercase every character. -/
def strUpper (s : String) : String := ⟨s.data.map Char.toUpper⟩

/-- Embeds `PropagationTvro.__init__`: the `if/elif` on `environment.upper()`
has no `else` branch and no `raise`, so construction always succeeds; on an
unmatched name the profile attributes are simply never set. -/
def initPropagationTvro (environment : String) : Except SimError PropagationTvro :=
  if strUpper environment = "URBAN" then .ok ⟨some urbanParams, 20⟩
  else if strUpper environment = "SUBURBAN" then .ok ⟨some suburbanParams, 20⟩
  else .ok ⟨none, 20⟩

/-- Embeds the clutter-loss formula of `PropagationTvro.get_loss` (lines 70–72):
`10.25·f_fc·exp(−d_k)·(1 − tanh(6·(height/h_a − 0.625))) − 0.33` with
`f_fc = 0.25 + 0.375·(1 + tanh(7.5·(f_GHz − 0.5)))`. -/
def clutterLoss (p : EnvParams) (f_MHz height : ℝ) : ℝ :=
  let f_GHz := f_MHz / 1000
  let f_fc := 0.25 + 0.375 * (1 + Real.tanh (7.5 * (f_GHz - 0.5)))
  10.25 * f_fc * Real.exp (-p.d_k) * (1 - Real.tanh (6 * (height / p.h_a - 0.625))) - 0.33

/-- Embeds the elementwise body of `PropagationTvro.get_loss` (lines 68–90):
free-space baseline, the two masked clutter additions, building loss for
indoor stations, the optional shadowing draw `shadow`, and the final
clamp `max(loss, free_space_path_loss)`. -/
def getLossElem (p : EnvParams) (building_loss : ℝ) (fspl : ℝ → ℝ → ℝ)
    (d_3D f_MHz height : ℝ) (indoor : Bool) (shadowing : Bool) (shadow : ℝ) : ℝ :=
  let free_space := fspl d_3D f_MHz
  let cl := clutterLoss p f_MHz height
  let loss1 :=
    if 40 ≤ d_3D ∧ d_3D < 10 * p.d_k * 1000 then
      free_space + (d_3D / 1000 - 0.04) / (10 * p.d_k - 0.04) * cl
    else free_space
  let loss2 := if 10 * p.d_k * 1000 ≤ d_3D then loss1 + cl else loss1
  let loss3 := loss2 + building_loss * (if indoor then 1 else 0)
  let loss4 := if shadowing then loss3 + shadow else loss3
  max loss4 free_space

/-- One link of the batch passed to `get_loss`: 3-D distance (m), frequency
(MHz), the selected height (`es_z` or `ue_height`), and the indoor flag. -/
structure Link where
  d_3D : ℝ
  f_MHz : ℝ
  height : ℝ
  indoor : Bool

/-- Row (1-D batch) form of `get_loss` without sector replication: when
shadowing is enabled the draws are consumed positionally, otherwise they are
ignored. -/
def getLossRow (p : EnvParams) (building_loss : ℝ) (fspl : ℝ → ℝ → ℝ)
    (links : List Link) (shadowing : Bool) (draws : List ℝ) : List ℝ :=
  if shadowing then
    List.zipWith (fun lnk sh =>
      getLossElem p building_loss fspl lnk.d_3D lnk.f_MHz lnk.height lnk.indoor true sh)
      links draws
  else
    links.map (fun lnk =>
      getLossElem p building_loss fspl lnk.d_3D lnk.f_MHz lnk.height lnk.indoor false 0)

/-- The `get_loss` row form with the shared random source made explicit: the
`normal` draw function (standard deviation, sample count) is consumed only
when `shadowing` is true, exactly as in lines 84–88 of the source. -/
def getLossRng (σ : Type) (normal : ℝ → ℕ → σ → List ℝ × σ)
    (p : EnvParams) (building_loss : ℝ) (fspl : ℝ → ℝ → ℝ)
    (links : List Link) (shadowing : Bool) (s : σ) : List ℝ × σ :=
  if shadowing then
    let res := normal p.shadowing_std links.length s
    (getLossRow p building_loss fspl links true res.1, res.2)
  else
    (getLossRow p building_loss fspl links false [], s)

/-- Embeds `np.repeat(loss, k, 1)`: every element of every row is repeated
`k` consecutive times along axis 1. -/
def repeatAxis1 (k : ℕ) (loss : List (List ℝ)) : List (List ℝ) :=
  loss.map (fun row => row.flatMap (fun x => List.replicate k x))

/-- Two-dimensional form of `get_loss` with the sector step (lines 92–93):
if `number_of_sectors > 1` the loss matrix is repeated along axis 1. -/
def getLoss2D (p : EnvParams) (building_loss : ℝ) (fspl : ℝ → ℝ → ℝ)
    (batch : List (List Link)) (shadowing : Bool) (draws : List (List ℝ))
    (number_of_sectors : ℕ) : List (List ℝ) :=
  let loss := List.zipWith (fun row drow => getLossRow p building_loss fspl row shadowing drow)
    batch draws
  if 1 < number_of_sectors then repeatAxis1 number_of_sectors loss else loss

/-- Modelled from the spec: the free-space path-loss primitive
(`PropagationFreeSpace`, consumed as a black box and not under `src/`) —
"given 3-D distance and frequency, returns baseline free-space loss in dB",
the standard free-space formula `20·log10(d) + 20·log10(f) − 27.55`
for `d` in metres and `f` in MHz. -/
def fsplSpec (d_3D f_MHz : ℝ) : ℝ :=
  20 * Real.logb 10 d_3D + 20 * Real.logb 10 f_MHz - 27.55

/-- The radian conversion written as the specification writes it. -/
theorem deg2rad_eq (x : ℝ) : deg2rad x = x * Real.pi / 180 := by
  unfold deg2rad; ring

/-- A complex exponential with purely imaginary argument has modulus one. -/
theorem abs_exp_two_pi_mul_I (a : ℝ) :
    Complex.abs (Complex.exp (2 * (Real.pi : ℂ) * Complex.I * (a : ℂ))) = 1 := by
  rw [show (2 * (Real.pi : ℂ) * Complex.I * (a : ℂ))
        = ((2 * Real.pi * a : ℝ) : ℂ) * Complex.I by push_cast; ring]
  exact Complex.abs_exp_ofReal_mul_I _

/-- Every entry of the weight vector has modulus `1/√(n_rows·n_cols)`. -/
theorem abs_weightVector (n_rows n_cols : ℕ) (dh dv phi_tilt theta_tilt : ℝ)
    (i : Fin n_rows) (j : Fin n_cols) :
    Complex.abs (weightVector n_rows n_cols dh dv phi_tilt theta_tilt i j)
      = 1 / Real.sqrt ((n_rows : ℝ) * (n_cols : ℝ)) := by
  simp only [weightVector]
  rw [map_mul, Complex.abs_ofReal, abs_exp_two_pi_mul_I, mul_one, abs_of_nonneg]
  positivity

/-- C4: the weight vector equals the specification's closed form, and (for a
nonempty geometry) its Frobenius norm is exactly one. -/
theorem weightVector_spec_and_frobNorm (n_rows n_cols : ℕ) (dh dv phi_tilt theta_tilt : ℝ) :
    weightVector n_rows n_cols dh dv phi_tilt theta_tilt
      = weightVectorSpec n_rows n_cols dh dv phi_tilt theta_tilt ∧
    (0 < n_rows → 0 < n_cols →
      frobNorm n_rows n_cols (weightVector n_rows n_cols dh dv phi_tilt theta_tilt) = 1) := by
  constructor
  · funext i j
    simp only [weightVector, weightVectorSpec, deg2rad_eq]
    congr 2
    push_cast
    ring_nf
  · intro hr hc
    have hN : (0 : ℝ) < (n_rows : ℝ) * (n_cols : ℝ) := by
      have h1 : (0 : ℝ) < (n_rows : ℝ) := by exact_mod_cast hr
      have h2 : (0 : ℝ) < (n_cols : ℝ) := by exact_mod_cast hc
      positivity
    have h1 : ∀ (i : Fin n_rows) (j : Fin n_cols),
        Complex.abs (weightVector n_rows n_cols dh dv phi_tilt theta_tilt i j) ^ 2
          = ((n_rows : ℝ) * (n_cols : ℝ))⁻¹ := by
      intro i j
      rw [abs_weightVector, one_div, inv_pow, Real.sq_sqrt hN.le]
    unfold frobNorm
    rw [Finset.sum_congr rfl fun i _ => Finset.sum_congr rfl fun j _ => h1 i j]
    simp only [Finset.sum_const, Finset.card_univ, Fintype.card_fin, nsmul_eq_mul]
    rw [← mul_assoc, mul_inv_cancel₀ hN.ne', Real.sqrt_one]

/-- C4 witness: a concrete `2 × 3` geometry with half-wavelength spacing and a
nonzero tilt pair has a unit-Frobenius-norm weight vector. -/
theorem weightVector_spec_and_frobNorm_witness :
    frobNorm 2 3 (weightVector 2 3 0.5 0.5 10 20) = 1 :=
  (weightVector_spec_and_frobNorm 2 3 0.5 0.5 10 20).2 (by norm_num) (by norm_num)

/-- C5 counterexample: for the `2 × 1` array with half-wavelength vertical
spacing, the gain at query direction `(phi, theta) = (0, 0)` with tilt `(0, 0)`
is not the coherent combining gain `10·log10(n_rows·n_cols)`: with the model's
zenith-referenced elevation convention, `theta = 0` is a pattern null of this
array, not boresight. -/
theorem arrayGain_boresight_counterexample :
    arrayGain 2 1 (superPositionVector 2 1 0.5 0.5 0 0) (weightVector 2 1 0.5 0.5 0 0)
      ≠ 10 * Real.logb 10 ((2 : ℝ) * 1) := by
  intro h
  have h0 : deg2rad 0 = 0 := by rw [deg2rad_eq]; ring
  have hmain : arrayGain 2 1 (superPositionVector 2 1 0.5 0.5 0 0)
      (weightVector 2 1 0.5 0.5 0 0) = 0 := by
    have hv1 : superPositionVector 2 1 0.5 0.5 0 0 1 0 = -1 := by
      simp only [superPositionVector, h0, Real.cos_zero, Real.sin_zero,
        Fin.val_one, Fin.val_zero, Nat.cast_one, Nat.cast_zero]
      rw [← Complex.exp_pi_mul_I]
      congr 1
      rw [show ((1 * 0.5 * 1 + 0 * 0.5 * 0 * 0 : ℝ) : ℂ) = 2⁻¹ by norm_num]
      ring
    have hv0 : superPositionVector 2 1 0.5 0.5 0 0 0 0 = 1 := by
      simp only [superPositionVector, h0, Real.cos_zero, Real.sin_zero,
        Fin.val_zero, Nat.cast_zero]
      norm_num
    have hw : ∀ i : Fin 2, weightVector 2 1 0.5 0.5 0 0 i 0
        = ((1 / Real.sqrt (((2 : ℕ) : ℝ) * ((1 : ℕ) : ℝ)) : ℝ) : ℂ) := by
      intro i
      simp only [weightVector, h0, Real.cos_zero, Real.sin_zero, Fin.val_zero]
      norm_num
    unfold arrayGain
    rw [Fin.sum_univ_two, Fin.sum_univ_one, Fin.sum_univ_one, hv0, hv1, hw 0, hw 1]
    rw [show ((1 : ℂ) * ((1 / Real.sqrt (((2 : ℕ) : ℝ) * ((1 : ℕ) : ℝ)) : ℝ) : ℂ) +
          (-1) * ((1 / Real.sqrt (((2 : ℕ) : ℝ) * ((1 : ℕ) : ℝ)) : ℝ) : ℂ)) = 0 by ring]
    simp [Real.logb_zero]
  rw [hmain] at h
  have hpos : 0 < Real.logb 10 ((2 : ℝ) * 1) := by
    apply Real.logb_pos (by norm_num) (by norm_num)
  linarith

/-- C5 (amended): with the model's convention that elevation is measured from
zenith, array boresight is the query direction `(phi, theta) = (0, 90)`; there,
against the beam steered with tilt `(0, 0)`, the array gain equals the coherent
combining gain `10·log10(n_rows·n_cols)`. -/
theorem arrayGain_boresight (n_rows n_cols : ℕ) (dh dv : ℝ)
    (hr : 0 < n_rows) (hc : 0 < n_cols) :
    arrayGain n_rows n_cols (superPositionVector n_rows n_cols dh dv 0 90)
      (weightVector n_rows n_cols dh dv 0 0)
      = 10 * Real.logb 10 ((n_rows : ℝ) * (n_cols : ℝ)) := by
  have hN : (0 : ℝ) < (n_rows : ℝ) * (n_cols : ℝ) := by
    have h1 : (0 : ℝ) < (n_rows : ℝ) := by exact_mod_cast hr
    have h2 : (0 : ℝ) < (n_cols : ℝ) := by exact_mod_cast hc
    positivity
  have hv : ∀ (i : Fin n_rows) (j : Fin n_cols),
      superPositionVector n_rows n_cols dh dv 0 90 i j = 1 := by
    intro i j
    simp only [superPositionVector, deg2rad_eq]
    rw [show ((90 : ℝ) * Real.pi / 180) = Real.pi / 2 by ring]
    rw [show ((0 : ℝ) * Real.pi / 180) = 0 by ring]
    rw [Real.cos_pi_div_two, Real.sin_zero]
    norm_num
  have hw : ∀ (i : Fin n_rows) (j : Fin n_cols),
      weightVector n_rows n_cols dh dv 0 0 i j
        = ((1 / Real.sqrt ((n_rows : ℝ) * (n_cols : ℝ)) : ℝ) : ℂ) := by
    intro i j
    simp only [weightVector, deg2rad_eq]
    rw [show ((0 : ℝ) * Real.pi / 180) = 0 by ring]
    rw [Real.sin_zero]
    norm_num
  unfold arrayGain
  rw [Finset.sum_congr rfl fun i _ => Finset.sum_congr rfl fun j _ => by rw [hv i j, hw i j, one_mul]]
  simp only [Finset.sum_const, Finset.card_univ, Fintype.card_fin, nsmul_eq_mul]
  rw [show ((n_cols : ℂ) * ((1 / Real.sqrt ((n_rows : ℝ) * (n_cols : ℝ)) : ℝ) : ℂ))
        = (((n_cols : ℝ) * (1 / Real.sqrt ((n_rows : ℝ) * (n_cols : ℝ))) : ℝ) : ℂ) by
      push_cast; ring]
  rw [show ((n_rows : ℂ) * (((n_cols : ℝ) * (1 / Real.sqrt ((n_rows : ℝ) * (n_cols : ℝ))) : ℝ) : ℂ))
        = ((((n_rows : ℝ) * (n_cols : ℝ)) / Real.sqrt ((n_rows : ℝ) * (n_cols : ℝ)) : ℝ) : ℂ) by
      push_cast; ring]
  rw [Real.div_sqrt, Complex.abs_ofReal, abs_of_nonneg (Real.sqrt_nonneg _),
    Real.sq_sqrt hN.le]

/-- C5 witness: a concrete `2 × 3` half-wavelength array achieves the coherent
combining gain at zenith-convention boresight. -/
theorem arrayGain_boresight_witness :
    arrayGain 2 3 (superPositionVector 2 3 0.5 0.5 0 90) (weightVector 2 3 0.5 0.5 0 0)
      = 10 * Real.logb 10 (((2 : ℕ) : ℝ) * ((3 : ℕ) : ℝ)) :=
  arrayGain_boresight 2 3 0.5 0.5 (by norm_num) (by norm_num)

/-- Folding `add_beam` over a call sequence appends the tilt pairs and their
weight vectors in order. -/
theorem addBeam_foldl (n_rows n_cols : ℕ) (dh dv : ℝ) (cs : List (ℝ × ℝ))
    (s : AntennaState n_rows n_cols) :
    (cs.foldl (fun t p => addBeam n_rows n_cols dh dv t p.1 p.2) s).beams_list
        = s.beams_list ++ cs ∧
    (cs.foldl (fun t p => addBeam n_rows n_cols dh dv t p.1 p.2) s).w_vec_list
        = s.w_vec_list ++ cs.map (fun p => weightVector n_rows n_cols dh dv p.1 p.2) := by
  induction cs generalizing s with
  | nil => simp
  | cons c cs ih =>
    simp only [List.foldl_cons, List.map_cons]
    constructor
    · rw [(ih _).1]
      simp [addBeam]
    · rw [(ih _).2]
      simp [addBeam]

/-- C9: each `add_beam` call appends exactly one entry to each list, leaving
earlier entries unchanged, and after any call sequence from the initial state
the beam list equals the call sequence while the weight-vector list is its
image under `weight_vector`. -/
theorem addBeam_invariant (n_rows n_cols : ℕ) (dh dv : ℝ) :
    (∀ (s : AntennaState n_rows n_cols) (φ θ : ℝ),
      (addBeam n_rows n_cols dh dv s φ θ).beams_list = s.beams_list ++ [(φ, θ)] ∧
      (addBeam n_rows n_cols dh dv s φ θ).w_vec_list
        = s.w_vec_list ++ [weightVector n_rows n_cols dh dv φ θ] ∧
      (addBeam n_rows n_cols dh dv s φ θ).beams_list.length = s.beams_list.length + 1 ∧
      (addBeam n_rows n_cols dh dv s φ θ).w_vec_list.length = s.w_vec_list.length + 1) ∧
    (∀ cs : List (ℝ × ℝ),
      (cs.foldl (fun t p => addBeam n_rows n_cols dh dv t p.1 p.2)
          (initAntennaState n_rows n_cols)).beams_list = cs ∧
      (cs.foldl (fun t p => addBeam n_rows n_cols dh dv t p.1 p.2)
          (initAntennaState n_rows n_cols)).w_vec_list
        = cs.map (fun p => weightVector n_rows n_cols dh dv p.1 p.2)) := by
  constructor
  · intro s φ θ
    refine ⟨rfl, rfl, ?_, ?_⟩ <;> simp [addBeam]
  · intro cs
    have h := addBeam_foldl n_rows n_cols dh dv cs (initAntennaState n_rows n_cols)
    simpa [initAntennaState] using h

/-- The hyperbolic tangent is bounded above by one. -/
theorem tanh_lt_one (x : ℝ) : Real.tanh x < 1 := by
  rw [Real.tanh_eq_sinh_div_cosh, div_lt_one (Real.cosh_pos x)]
  exact Real.sinh_lt_cosh x

/-- The hyperbolic tangent is bounded below by minus one. -/
theorem neg_one_lt_tanh (x : ℝ) : -1 < Real.tanh x := by
  rw [Real.tanh_eq_sinh_div_cosh, lt_div_iff₀ (Real.cosh_pos x)]
  nlinarith [Real.cosh_add_sinh x, Real.exp_pos x]

/-- The hyperbolic tangent is positive on positive arguments. -/
theorem tanh_pos_of_pos {x : ℝ} (hx : 0 < x) : 0 < Real.tanh x := by
  rw [Real.tanh_eq_sinh_div_cosh]
  exact div_pos (Real.sinh_pos_iff.mpr hx) (Real.cosh_pos x)

/-- The hyperbolic tangent is negative on negative arguments. -/
theorem tanh_neg_of_neg {x : ℝ} (hx : x < 0) : Real.tanh x < 0 := by
  have h1 : 0 < Real.sinh (-x) := Real.sinh_pos_iff.mpr (by linarith)
  rw [Real.sinh_neg] at h1
  rw [Real.tanh_eq_sinh_div_cosh]
  exact div_neg_of_neg_of_pos (by linarith) (Real.cosh_pos x)

/-- The clutter loss is always strictly greater than −0.33, for any profile
constants, frequency and height. -/
theorem clutterLoss_gt (p : EnvParams) (f_MHz height : ℝ) :
    -0.33 < clutterLoss p f_MHz height := by
  unfold clutterLoss
  have h1 := neg_one_lt_tanh (7.5 * (f_MHz / 1000 - 0.5))
  have h2 := tanh_lt_one (6 * (height / p.h_a - 0.625))
  have h3 := Real.exp_pos (-p.d_k)
  have hffc : 0 < 0.25 + 0.375 * (1 + Real.tanh (7.5 * (f_MHz / 1000 - 0.5))) := by nlinarith
  have ht2 : 0 < 1 - Real.tanh (6 * (height / p.h_a - 0.625)) := by linarith
  nlinarith [mul_pos (mul_pos (mul_pos (show (0 : ℝ) < 10.25 by norm_num) hffc) h3) ht2]

/-- At 3600 MHz and 1.5 m height the urban clutter loss is strictly positive. -/
theorem clutterLoss_urban_scenario_pos : 0 < clutterLoss urbanParams 3600 1.5 := by
  have hdk : urbanParams.d_k = 0.02 := rfl
  have hha : urbanParams.h_a = 20 := rfl
  unfold clutterLoss
  rw [hdk, hha]
  have h1 : 0 < Real.tanh (7.5 * ((3600 : ℝ) / 1000 - 0.5)) := tanh_pos_of_pos (by norm_num)
  have h2 : Real.tanh (6 * ((1.5 : ℝ) / 20 - 0.625)) < 0 := tanh_neg_of_neg (by norm_num)
  have h3 : (0.98 : ℝ) ≤ Real.exp (-0.02) := by
    have := Real.add_one_le_exp (-0.02 : ℝ)
    linarith
  have hffc : (0.625 : ℝ) ≤ 0.25 + 0.375 * (1 + Real.tanh (7.5 * ((3600 : ℝ) / 1000 - 0.5))) := by
    linarith
  have hfac : (1 : ℝ) ≤ 1 - Real.tanh (6 * ((1.5 : ℝ) / 20 - 0.625)) := by linarith
  have s1 : (0.625 : ℝ) * 0.98
      ≤ (0.25 + 0.375 * (1 + Real.tanh (7.5 * ((3600 : ℝ) / 1000 - 0.5)))) * Real.exp (-0.02) :=
    mul_le_mul hffc h3 (by norm_num) (by linarith)
  have s2 : (0.625 : ℝ) * 0.98 * 1
      ≤ (0.25 + 0.375 * (1 + Real.tanh (7.5 * ((3600 : ℝ) / 1000 - 0.5)))) * Real.exp (-0.02) *
        (1 - Real.tanh (6 * ((1.5 : ℝ) / 20 - 0.625))) :=
    mul_le_mul s1 hfac zero_le_one (by nlinarith)
  nlinarith [s2]

/-- At the 40 m threshold the interpolated clutter contribution vanishes for
either recognized profile, so an outdoor non-shadowed link sees exactly the
free-space loss. -/
theorem getLossElem_forty (p : EnvParams) (hp : p = urbanParams ∨ p = suburbanParams)
    (fspl : ℝ → ℝ → ℝ) (f_MHz height : ℝ) :
    getLossElem p 20 fspl 40 f_MHz height false false 0 = fspl 40 f_MHz := by
  rcases hp with h | h <;> subst h
  · have hdk : urbanParams.d_k = 0.02 := rfl
    simp only [getLossElem, hdk]
    norm_num
  · have hdk : suburbanParams.d_k = 0.025 := rfl
    simp only [getLossElem, hdk]
    norm_num

/-- C1 counterexample: constructing with environment name "RURAL", which
matches neither recognized value, does not raise: construction succeeds with
the profile attributes left unset. -/
theorem initPropagationTvro_counterexample :
    initPropagationTvro "RURAL" = .ok ⟨none, 20⟩ ∧
    strUpper "RURAL" ≠ "URBAN" ∧ strUpper "RURAL" ≠ "SUBURBAN" := by
  refine ⟨?_, by decide, by decide⟩
  unfold initPropagationTvro
  rw [if_neg (by decide), if_neg (by decide)]

/-- C1 (amended): for every environment name whose uppercasing matches neither
"URBAN" nor "SUBURBAN", construction nevertheless succeeds — the `if/elif` has
no `else`, so the profile attributes are simply never assigned and failure can
only surface later, when `get_loss` reads the missing attributes. -/
theorem initPropagationTvro_unmatched (environment : String)
    (hu : strUpper environment ≠ "URBAN") (hs : strUpper environment ≠ "SUBURBAN") :
    initPropagationTvro environment = .ok ⟨none, 20⟩ := by
  unfold initPropagationTvro
  rw [if_neg hu, if_neg hs]

/-- C1 witness: the amended statement applied to the concrete name "RURAL". -/
theorem initPropagationTvro_unmatched_witness :
    initPropagationTvro "RURAL" = .ok ⟨none, 20⟩ :=
  initPropagationTvro_unmatched "RURAL" (by decide) (by decide)

/-- C10: at distance exactly 40 m the interpolation fraction is exactly zero
and, for either recognized profile, an outdoor link with shadowing disabled
receives exactly the free-space loss: the clutter term is continuous (zero)
at the 40 m boundary. -/
theorem getLossElem_at_forty (p : EnvParams)
    (hp : p = urbanParams ∨ p = suburbanParams) (fspl : ℝ → ℝ → ℝ) (f_MHz height : ℝ) :
    ((40 : ℝ) / 1000 - 0.04) / (10 * p.d_k - 0.04) = 0 ∧
    getLossElem p 20 fspl 40 f_MHz height false false 0 = fspl 40 f_MHz := by
  constructor
  · rw [show ((40 : ℝ) / 1000 - 0.04) = 0 by norm_num, zero_div]
  · exact getLossElem_forty p hp fspl f_MHz height

/-- C10 witness: the statement at the URBAN profile, 3600 MHz, 1.5 m height,
against the modelled free-space primitive. -/
theorem getLossElem_at_forty_witness :
    ((40 : ℝ) / 1000 - 0.04) / (10 * urbanParams.d_k - 0.04) = 0 ∧
    getLossElem urbanParams 20 fsplSpec 40 3600 1.5 false false 0 = fsplSpec 40 3600 :=
  getLossElem_at_forty urbanParams (Or.inl rfl) fsplSpec 3600 1.5

/-- C2 counterexample: in the URBAN scenario, element 1 (distance exactly
40 m) equals the free-space loss — the interpolation fraction is exactly
zero there — so it is not strictly greater than the free-space loss. -/
theorem getLoss_scenario_counterexample :
    getLossElem urbanParams 20 fsplSpec 40 3600 1.5 false false 0 = fsplSpec 40 3600 ∧
    ¬ fsplSpec 40 3600 < getLossElem urbanParams 20 fsplSpec 40 3600 1.5 false false 0 := by
  have h := getLossElem_forty urbanParams (Or.inl rfl) fsplSpec 3600 1.5
  exact ⟨h, by rw [h]; exact lt_irrefl _⟩

/-- C2 (amended): in the URBAN scenario with distances 39, 40, 200 and
10000 m, elements 0 and 1 equal the free-space loss exactly (39 m is below
the clutter threshold and at 40 m the interpolation fraction is exactly
zero), while elements 2 and 3 strictly exceed it and carry the full
(uninterpolated) clutter term. -/
theorem getLoss_scenario (fspl : ℝ → ℝ → ℝ) :
    getLossRow urbanParams 20 fspl
        [⟨39, 3600, 1.5, false⟩, ⟨40, 3600, 1.5, false⟩,
         ⟨200, 3600, 1.5, false⟩, ⟨10000, 3600, 1.5, false⟩] false []
      = [fspl 39 3600, fspl 40 3600,
         fspl 200 3600 + clutterLoss urbanParams 3600 1.5,
         fspl 10000 3600 + clutterLoss urbanParams 3600 1.5] ∧
    fspl 200 3600 < fspl 200 3600 + clutterLoss urbanParams 3600 1.5 ∧
    fspl 10000 3600 < fspl 10000 3600 + clutterLoss urbanParams 3600 1.5 := by
  have hcl := clutterLoss_urban_scenario_pos
  have hdk : urbanParams.d_k = 0.02 := rfl
  have h39 : getLossElem urbanParams 20 fspl 39 3600 1.5 false false 0 = fspl 39 3600 := by
    simp only [getLossElem, hdk]
    norm_num
  have h40 : getLossElem urbanParams 20 fspl 40 3600 1.5 false false 0 = fspl 40 3600 :=
    getLossElem_forty urbanParams (Or.inl rfl) fspl 3600 1.5
  have h200 : getLossElem urbanParams 20 fspl 200 3600 1.5 false false 0
      = fspl 200 3600 + clutterLoss urbanParams 3600 1.5 := by
    simp only [getLossElem, hdk, Bool.false_eq_true, if_false]
    rw [if_neg (show ¬((40 : ℝ) ≤ 200 ∧ (200 : ℝ) < 10 * 0.02 * 1000) by norm_num),
      if_pos (show (10 : ℝ) * 0.02 * 1000 ≤ 200 by norm_num), mul_zero, add_zero]
    exact max_eq_left (by linarith)
  have h10000 : getLossElem urbanParams 20 fspl 10000 3600 1.5 false false 0
      = fspl 10000 3600 + clutterLoss urbanParams 3600 1.5 := by
    simp only [getLossElem, hdk, Bool.false_eq_true, if_false]
    rw [if_neg (show ¬((40 : ℝ) ≤ 10000 ∧ (10000 : ℝ) < 10 * 0.02 * 1000) by norm_num),
      if_pos (show (10 : ℝ) * 0.02 * 1000 ≤ 10000 by norm_num), mul_zero, add_zero]
    exact max_eq_left (by linarith)
  refine ⟨?_, lt_add_of_pos_right _ hcl, lt_add_of_pos_right _ hcl⟩
  simp only [getLossRow, Bool.false_eq_true, if_false, List.map_cons, List.map_nil]
  rw [h39, h40, h200, h10000]

/-- C3: the returned loss never falls below the free-space loss: elementwise
for every profile, building-loss constant, free-space model, link, shadowing
flag and shadowing draw; and for every batch row, pointwise along the row. -/
theorem getLoss_ge_free_space :
    (∀ (p : EnvParams) (bl : ℝ) (fspl : ℝ → ℝ → ℝ) (d f h : ℝ) (ind : Bool)
      (shadowing : Bool) (shadow : ℝ),
      fspl d f ≤ getLossElem p bl fspl d f h ind shadowing shadow) ∧
    (∀ (p : EnvParams) (bl : ℝ) (fspl : ℝ → ℝ → ℝ) (links : List Link)
      (shadowing : Bool) (draws : List ℝ), draws.length = links.length →
      List.Forall₂ (fun lnk l => fspl lnk.d_3D lnk.f_MHz ≤ l) links
        (getLossRow p bl fspl links shadowing draws)) := by
  have helem : ∀ (p : EnvParams) (bl : ℝ) (fspl : ℝ → ℝ → ℝ) (d f h : ℝ) (ind : Bool)
      (shadowing : Bool) (shadow : ℝ),
      fspl d f ≤ getLossElem p bl fspl d f h ind shadowing shadow := by
    intro p bl fspl d f h ind shadowing shadow
    simp only [getLossElem]
    exact le_max_right _ _
  refine ⟨helem, ?_⟩
  intro p bl fspl links shadowing draws hlen
  cases shadowing with
  | false =>
    clear hlen
    simp only [getLossRow, Bool.false_eq_true, if_false]
    induction links with
    | nil => simp
    | cons a l ih =>
      simp only [List.map_cons]
      exact List.Forall₂.cons (helem p bl fspl a.d_3D a.f_MHz a.height a.indoor false 0) ih
  | true =>
    simp only [getLossRow, if_true]
    induction links generalizing draws with
    | nil => simp
    | cons a l ih =>
      cases draws with
      | nil => simp at hlen
      | cons b ds =>
        simp only [List.zipWith_cons_cons]
        exact List.Forall₂.cons (helem p bl fspl a.d_3D a.f_MHz a.height a.indoor true b)
          (ih ds (by simpa using hlen))

/-- C3 witness: a concrete indoor link with an enabled shadowing draw. -/
theorem getLoss_ge_free_space_witness :
    List.Forall₂ (fun (lnk : Link) (l : ℝ) => fsplSpec lnk.d_3D lnk.f_MHz ≤ l)
      [⟨100, 3600, 1.5, true⟩]
      (getLossRow urbanParams 20 fsplSpec [⟨100, 3600, 1.5, true⟩] true [2.5]) :=
  getLoss_ge_free_space.2 urbanParams 20 fsplSpec [⟨100, 3600, 1.5, true⟩] true [2.5] rfl

/-- C8: with shadowing disabled, `get_loss` is a pure function of its inputs:
the result does not depend on the state of the shared random source, and that
state is returned unchanged (no draw is consumed). -/
theorem getLoss_no_shadow_deterministic (σ : Type) (normal : ℝ → ℕ → σ → List ℝ × σ)
    (p : EnvParams) (bl : ℝ) (fspl : ℝ → ℝ → ℝ) (links : List Link) (s1 s2 : σ) :
    (getLossRng σ normal p bl fspl links false s1).1
      = (getLossRng σ normal p bl fspl links false s2).1 ∧
    (getLossRng σ normal p bl fspl links false s1).2 = s1 := by
  constructor <;> simp [getLossRng]

/-- Repeating every element of a row `k` times multiplies its length by `k`. -/
theorem length_flatMap_replicate (k : ℕ) (row : List ℝ) :
    (row.flatMap (fun x => List.replicate k x)).length = k * row.length := by
  induction row with
  | nil => simp
  | cons a l ih =>
    simp only [List.flatMap_cons, List.length_append, List.length_replicate, ih,
      List.length_cons]
    ring

/-- C6 counterexample: with a batch row of two links and `number_of_sectors
= 2`, `np.repeat(loss, 2, 1)` yields a sector axis of length 4, not 2. -/
theorem getLoss_sectors_counterexample :
    (getLoss2D urbanParams 20 (fun d _ => d)
        [[⟨10, 3600, 1.5, false⟩, ⟨20, 3600, 1.5, false⟩]] false [[]] 2).map List.length
      = [4] ∧ (4 : ℕ) ≠ 2 := by
  refine ⟨?_, by decide⟩
  simp [getLoss2D, getLossRow, repeatAxis1]

/-- C6 (amended): with `number_of_sectors = k > 1` the output is the
unsectored loss matrix with every element repeated `k` consecutive times
along axis 1 — so each row's length is `k` times its unsectored length — and
for a batch whose row holds a single link the sector axis has length exactly
`k`, all `k` entries identical. -/
theorem getLoss_sectors (p : EnvParams) (bl : ℝ) (fspl : ℝ → ℝ → ℝ)
    (batch : List (List Link)) (draws : List (List ℝ)) (shadowing : Bool) (k : ℕ)
    (hk : 1 < k) :
    getLoss2D p bl fspl batch shadowing draws k
      = (getLoss2D p bl fspl batch shadowing draws 1).map
          (fun row => row.flatMap (fun x => List.replicate k x)) ∧
    (getLoss2D p bl fspl batch shadowing draws k).map List.length
      = (getLoss2D p bl fspl batch shadowing draws 1).map (fun row => k * row.length) ∧
    (∀ lnk : Link, getLoss2D p bl fspl [[lnk]] false [[]] k
      = [List.replicate k
          (getLossElem p bl fspl lnk.d_3D lnk.f_MHz lnk.height lnk.indoor false 0)]) := by
  have hrep : getLoss2D p bl fspl batch shadowing draws k
      = (getLoss2D p bl fspl batch shadowing draws 1).map
          (fun row => row.flatMap (fun x => List.replicate k x)) := by
    simp only [getLoss2D, repeatAxis1, if_pos hk, if_neg (lt_irrefl 1)]
  refine ⟨hrep, ?_, ?_⟩
  · rw [hrep, List.map_map]
    apply List.map_congr_left
    intro row _
    simp only [Function.comp_apply, length_flatMap_replicate]
  · intro lnk
    simp [getLoss2D, getLossRow, repeatAxis1, if_pos hk]

/-- C6 witness: the single-link part of the amended statement at `k = 2`. -/
theorem getLoss_sectors_witness :
    getLoss2D urbanParams 20 fsplSpec [[⟨100, 3600, 1.5, false⟩]] false [[]] 2
      = [List.replicate 2 (getLossElem urbanParams 20 fsplSpec 100 3600 1.5 false false 0)] :=
  (getLoss_sectors urbanParams 20 fsplSpec [[⟨100, 3600, 1.5, false⟩]] [[]] false 2
    (by norm_num)).2.2 ⟨100, 3600, 1.5, false⟩

/-- The clutter blending factor implicit in the two masked additions of
`get_loss`: zero below 40 m, the linear interpolation fraction on
`[40, 10·d_k·1000)`, and one beyond. -/
def blend (d_k d_3D : ℝ) : ℝ :=
  if 40 ≤ d_3D ∧ d_3D < 10 * d_k * 1000 then (d_3D / 1000 - 0.04) / (10 * d_k - 0.04)
  else if 10 * d_k * 1000 ≤ d_3D then 1 else 0

/-- Without shadowing, the loss is the clamped sum of free-space loss, blended
clutter loss and building loss. -/
theorem getLossElem_eq_blend (p : EnvParams) (bl : ℝ) (fspl : ℝ → ℝ → ℝ)
    (d_3D f_MHz height : ℝ) (ind : Bool) :
    getLossElem p bl fspl d_3D f_MHz height ind false 0
      = max (fspl d_3D f_MHz + blend p.d_k d_3D * clutterLoss p f_MHz height
          + bl * (if ind then 1 else 0)) (fspl d_3D f_MHz) := by
  simp only [getLossElem, blend, Bool.false_eq_true, if_false]
  congr 1
  by_cases h1 : 40 ≤ d_3D ∧ d_3D < 10 * p.d_k * 1000
  · rw [if_pos h1, if_pos h1, if_neg (not_le.mpr h1.2)]
  · rw [if_neg h1, if_neg h1]
    by_cases h2 : 10 * p.d_k * 1000 ≤ d_3D
    · rw [if_pos h2, if_pos h2]
      ring
    · rw [if_neg h2, if_neg h2]
      ring

/-- Below the 40 m threshold the blending factor is zero. -/
theorem blend_zone1 (d_k d : ℝ) (hden : 0.16 ≤ 10 * d_k - 0.04) (h : d < 40) :
    blend d_k d = 0 := by
  unfold blend
  rw [if_neg (fun hc => absurd hc.1 (not_le.mpr h)), if_neg (by push_neg; linarith)]

/-- In the interpolation zone the blending factor is the linear fraction. -/
theorem blend_zone2 (d_k d : ℝ) (h40 : 40 ≤ d) (hlt : d < 10 * d_k * 1000) :
    blend d_k d = (d / 1000 - 0.04) / (10 * d_k - 0.04) := by
  unfold blend
  rw [if_pos ⟨h40, hlt⟩]

/-- Beyond `10·d_k·1000` metres the blending factor is one. -/
theorem blend_zone3 (d_k d : ℝ) (hT : 10 * d_k * 1000 ≤ d) :
    blend d_k d = 1 := by
  unfold blend
  rw [if_neg (fun hc => absurd hc.2 (not_lt.mpr hT)), if_pos hT]

/-- On the closed interval from 40 m to the upper threshold the blending
factor coincides with the linear fraction. -/
theorem blend_interval (d_k d : ℝ) (hden : 0.16 ≤ 10 * d_k - 0.04)
    (h40 : 40 ≤ d) (hle : d ≤ 10 * d_k * 1000) :
    blend d_k d = (d / 1000 - 0.04) / (10 * d_k - 0.04) := by
  rcases lt_or_le d (10 * d_k * 1000) with h | h
  · exact blend_zone2 d_k d h40 h
  · rw [blend_zone3 d_k d h]
    have hd : d = 10 * d_k * 1000 := le_antisymm hle h
    subst hd
    rw [show (10 * d_k * 1000 / 1000 - 0.04 : ℝ) = 10 * d_k - 0.04 by ring]
    rw [div_self (by linarith)]

/-- The blending factor is nonnegative. -/
theorem blend_nonneg (d_k d : ℝ) (hden : 0.16 ≤ 10 * d_k - 0.04) : 0 ≤ blend d_k d := by
  unfold blend
  split_ifs with h1 h2
  · exact div_nonneg (by linarith [h1.1]) (by linarith)
  · norm_num
  · norm_num

/-- The blending factor is at most one. -/
theorem blend_le_one (d_k d : ℝ) (hden : 0.16 ≤ 10 * d_k - 0.04) : blend d_k d ≤ 1 := by
  unfold blend
  split_ifs with h1 h2
  · rw [div_le_one (by linarith)]
    linarith [h1.2]
  · norm_num
  · norm_num

/-- The blending factor is non-decreasing in distance. -/
theorem blend_mono (d_k : ℝ) (hden : 0.16 ≤ 10 * d_k - 0.04) {d1 d2 : ℝ} (h12 : d1 ≤ d2) :
    blend d_k d1 ≤ blend d_k d2 := by
  rcases lt_or_le d1 40 with h1 | h1
  · rw [blend_zone1 d_k d1 hden h1]
    exact blend_nonneg d_k d2 hden
  · rcases le_or_lt (10 * d_k * 1000) d2 with h2 | h2
    · rw [blend_zone3 d_k d2 h2]
      exact blend_le_one d_k d1 hden
    · have h1b : d1 < 10 * d_k * 1000 := lt_of_le_of_lt h12 h2
      rw [blend_zone2 d_k d1 h1 h1b, blend_zone2 d_k d2 (le_trans h1 h12) h2]
      rw [div_le_div_iff_of_pos_right (show (0 : ℝ) < 10 * d_k - 0.04 by linarith)]
      linarith

/-- On the closed interpolation interval the blending factor grows at most at
the interpolation slope. -/
theorem blend_sub_le (d_k : ℝ) (hden : 0.16 ≤ 10 * d_k - 0.04) {d1 d2 : ℝ}
    (h40 : 40 ≤ d1) (h12 : d1 ≤ d2) (h2T : d2 ≤ 10 * d_k * 1000) :
    blend d_k d2 - blend d_k d1 ≤ (d2 - d1) / (1000 * (10 * d_k - 0.04)) := by
  rw [blend_interval d_k d1 hden h40 (le_trans h12 h2T),
    blend_interval d_k d2 hden (le_trans h40 h12) h2T]
  have hden0 : (10 * d_k - 0.04 : ℝ) ≠ 0 := by linarith
  have heq : (d2 / 1000 - 0.04) / (10 * d_k - 0.04) - (d1 / 1000 - 0.04) / (10 * d_k - 0.04)
      = (d2 - d1) / (1000 * (10 * d_k - 0.04)) := by
    field_simp
  linarith [heq.le, heq.ge]

/-- The modelled free-space loss is non-decreasing in distance. -/
theorem fsplSpec_mono (f : ℝ) {d1 d2 : ℝ} (h0 : 0 < d1) (h12 : d1 ≤ d2) :
    fsplSpec d1 f ≤ fsplSpec d2 f := by
  unfold fsplSpec
  have := Real.logb_le_logb_of_le (show (1 : ℝ) < 10 by norm_num) h0 h12
  linarith

/-- Lower bound on a logarithm difference by the relative increment. -/
theorem log_ratio_ge {a b : ℝ} (ha : 0 < a) (hab : a ≤ b) :
    (b - a) / b ≤ Real.log b - Real.log a := by
  have hb : 0 < b := lt_of_lt_of_le ha hab
  have h := Real.log_le_sub_one_of_pos (show 0 < a / b from div_pos ha hb)
  rw [Real.log_div ha.ne' hb.ne'] at h
  have h2 : a / b - 1 = -((b - a) / b) := by field_simp
  linarith

/-- A crude upper bound on the natural logarithm of ten. -/
theorem log_ten_le_four : Real.log 10 ≤ 4 := by
  have h1 : (2.7 : ℝ) < Real.exp 1 := by
    have := Real.exp_one_gt_d9
    linarith
  have h2 : (7.2 : ℝ) < Real.exp 1 * Real.exp 1 := by nlinarith
  have h3 : (51 : ℝ) < Real.exp 1 * Real.exp 1 * (Real.exp 1 * Real.exp 1) := by nlinarith
  rw [Real.log_le_iff_le_exp (by norm_num)]
  have h4 : Real.exp 4 = Real.exp 1 * Real.exp 1 * (Real.exp 1 * Real.exp 1) := by
    rw [← Real.exp_add, ← Real.exp_add]
    norm_num
  linarith

/-- On the interval from 40 m to 250 m the modelled free-space loss grows at
least at slope 1/50 dB per metre. -/
theorem fsplSpec_diff_ge (f : ℝ) {a b : ℝ} (ha : 40 ≤ a) (hab : a ≤ b) (hb : b ≤ 250) :
    (b - a) / 50 ≤ fsplSpec b f - fsplSpec a f := by
  have ha0 : 0 < a := by linarith
  have hb0 : 0 < b := by linarith
  have hlog10pos : 0 < Real.log 10 := Real.log_pos (by norm_num)
  have h1 : (b - a) / b ≤ Real.log b - Real.log a := log_ratio_ge ha0 hab
  have h2 : (b - a) / 250 ≤ (b - a) / b :=
    div_le_div_of_nonneg_left (by linarith) hb0 hb
  have hX : 0 ≤ Real.log b - Real.log a :=
    le_trans (div_nonneg (by linarith) hb0.le) h1
  have h3 : (Real.log b - Real.log a) / 4 ≤ (Real.log b - Real.log a) / Real.log 10 :=
    div_le_div_of_nonneg_left hX hlog10pos log_ten_le_four
  have hdiffb : Real.logb 10 b - Real.logb 10 a
      = (Real.log b - Real.log a) / Real.log 10 := by
    rw [Real.logb, Real.logb, div_sub_div_same]
  have h5 : (b - a) / 250 ≤ Real.log b - Real.log a := le_trans h2 h1
  have h6 : (b - a) / 1000 ≤ (Real.log b - Real.log a) / Real.log 10 := by
    calc (b - a) / 1000 = ((b - a) / 250) / 4 := by ring
      _ ≤ (Real.log b - Real.log a) / 4 := by linarith
      _ ≤ (Real.log b - Real.log a) / Real.log 10 := h3
  unfold fsplSpec
  nlinarith [h6, hdiffb]

/-- Core monotonicity: without the clamp and the indoor offset, free-space
plus blended clutter is non-decreasing in distance for either profile. -/
theorem loss_core_mono (p : EnvParams) (hp : p = urbanParams ∨ p = suburbanParams)
    (f_MHz height : ℝ) {d1 d2 : ℝ} (h0 : 0 < d1) (h12 : d1 ≤ d2) :
    fsplSpec d1 f_MHz + blend p.d_k d1 * clutterLoss p f_MHz height
      ≤ fsplSpec d2 f_MHz + blend p.d_k d2 * clutterLoss p f_MHz height := by
  have hden : 0.16 ≤ 10 * p.d_k - 0.04 := by
    rcases hp with h' | h' <;> subst h' <;> norm_num [urbanParams, suburbanParams]
  have hT : 10 * p.d_k * 1000 ≤ 250 := by
    rcases hp with h' | h' <;> subst h' <;> norm_num [urbanParams, suburbanParams]
  have hf := fsplSpec_mono f_MHz h0 h12
  rcases le_or_lt 0 (clutterLoss p f_MHz height) with hcpos | hcneg
  · have hb := blend_mono p.d_k hden h12
    nlinarith [mul_le_mul_of_nonneg_right hb hcpos]
  · have hclow : -0.33 < clutterLoss p f_MHz height := clutterLoss_gt p f_MHz height
    rcases le_or_lt (blend p.d_k d2) (blend p.d_k d1) with hbl | hbl
    · nlinarith [mul_nonneg
        (show (0 : ℝ) ≤ blend p.d_k d1 - blend p.d_k d2 by linarith)
        (show (0 : ℝ) ≤ -clutterLoss p f_MHz height by linarith)]
    · have hba : blend p.d_k (max d1 40) = blend p.d_k d1 := by
        rcases le_or_lt 40 d1 with h' | h'
        · rw [max_eq_left h']
        · rw [max_eq_right h'.le, blend_zone1 p.d_k d1 hden h']
          rw [blend_interval p.d_k 40 hden le_rfl (by linarith)]
          norm_num
      have hbb : blend p.d_k (min d2 (10 * p.d_k * 1000)) = blend p.d_k d2 := by
        rcases le_or_lt d2 (10 * p.d_k * 1000) with h' | h'
        · rw [min_eq_left h']
        · rw [min_eq_right h'.le, blend_zone3 p.d_k d2 h'.le,
            blend_zone3 p.d_k _ le_rfl]
      have hab : max d1 40 ≤ min d2 (10 * p.d_k * 1000) := by
        by_contra hab
        push_neg at hab
        have hmono := blend_mono p.d_k hden hab.le
        rw [hba, hbb] at hmono
        linarith
      have h40a : (40 : ℝ) ≤ max d1 40 := le_max_right _ _
      have hbT : min d2 (10 * p.d_k * 1000) ≤ 10 * p.d_k * 1000 := min_le_right _ _
      have hb250 : min d2 (10 * p.d_k * 1000) ≤ 250 := le_trans hbT hT
      have hfa : fsplSpec d1 f_MHz ≤ fsplSpec (max d1 40) f_MHz :=
        fsplSpec_mono f_MHz h0 (le_max_left _ _)
      have hfb : fsplSpec (min d2 (10 * p.d_k * 1000)) f_MHz ≤ fsplSpec d2 f_MHz :=
        fsplSpec_mono f_MHz (by linarith) (min_le_left _ _)
      have hslope := fsplSpec_diff_ge f_MHz h40a hab hb250
      have hbsub := blend_sub_le p.d_k hden h40a hab hbT
      rw [hba, hbb] at hbsub
      have hdenle : (min d2 (10 * p.d_k * 1000) - max d1 40) / (1000 * (10 * p.d_k - 0.04))
          ≤ (min d2 (10 * p.d_k * 1000) - max d1 40) / 160 := by
        apply div_le_div_of_nonneg_left (by linarith) (by norm_num)
        linarith
      have hprod : (blend p.d_k d2 - blend p.d_k d1) * (-clutterLoss p f_MHz height)
          ≤ ((min d2 (10 * p.d_k * 1000) - max d1 40) / 160) * 0.33 := by
        apply mul_le_mul (by linarith) (by linarith) (by linarith)
        apply div_nonneg (by linarith) (by norm_num)
      nlinarith [hprod, hslope, hfa, hfb]

/-- C7: with shadowing disabled and frequency, height, indoor flag and
profile fixed, the loss against the modelled free-space primitive is
monotonically non-decreasing in the 3-D distance. -/
theorem getLoss_mono (p : EnvParams) (hp : p = urbanParams ∨ p = suburbanParams)
    (f_MHz height : ℝ) (ind : Bool) {d1 d2 : ℝ} (h0 : 0 < d1) (h12 : d1 ≤ d2) :
    getLossElem p 20 fsplSpec d1 f_MHz height ind false 0
      ≤ getLossElem p 20 fsplSpec d2 f_MHz height ind false 0 := by
  rw [getLossElem_eq_blend, getLossElem_eq_blend]
  have hcore := loss_core_mono p hp f_MHz height h0 h12
  have hf := fsplSpec_mono f_MHz h0 h12
  exact max_le_max (by linarith) hf

/-- C7 witness: urban profile, 3600 MHz, 1.5 m height, outdoor, between 50 m
and 100 m. -/
theorem getLoss_mono_witness :
    getLossElem urbanParams 20 fsplSpec 50 3600 1.5 false false 0
      ≤ getLossElem urbanParams 20 fsplSpec 100 3600 1.5 false false 0 :=
  getLoss_mono urbanParams (Or.inl rfl) 3600 1.5 false (by norm_num) (by norm_num)

end Sharc
